import Mathlib

/-!
Shallow embedding of the link-resolution and traffic-accounting subsystem of
a Go URL shortener (services/url_service.go, services/analytics_service.go,
middleware rate limiter, handlers/url_handler.go).

Modelling conventions:
* Go `time.Time` is modelled as `Int` (a point on a linear time axis);
  `a.After(b)` is `a > b`, `now.Sub(t)` is `now - t`.  For the rate limiter
  the unit is seconds, so `timeWindow = 60`.
* The SQLite `urls` table is a `List URLRec`; `clicks` is a `List Click`.
  `QueryRow ... WHERE short_code = ?` returns the first matching row,
  modelled with `List.find?`.
* `crypto/rand` is modelled as an oracle `Nat → Nat → Fin 62` giving, for
  attempt `i` and character position `j`, the uniformly drawn index into the
  62-character alphabet (`rand.Int(rand.Reader, 62)` always yields a value
  in `[0, 62)`).
* Go errors are explicit constructors carrying the `fmt.Errorf` text.
-/

/-- The 62-character alphanumeric alphabet, `charset` in url_service.go. -/
def charset : List Char :=
  "abcdefghijklmnopqrstuvwxyzABCDEFGHIJKLMNOPQRSTUVWXYZ0123456789".data

/-- `shortCodeLength = 6` in url_service.go. -/
def shortCodeLength : Nat := 6

/-- `maxRetries = 5` in url_service.go. -/
def maxRetries : Nat := 5

/-- A row of the `urls` table / `models.URL`. -/
structure URLRec where
  id : Int
  shortCode : String
  originalURL : String
  createdAt : Int
  expiresAt : Option Int
  clickCount : Int
  userIP : String
  isCustom : Bool
  deriving Repr, DecidableEq

/-- A row of the `clicks` table / `models.Click`. -/
structure Click where
  urlShortCode : String
  ipAddress : String
  userAgent : String
  referer : String
  country : String
  city : String
  clickedAt : Int
  deriving Repr, DecidableEq

/-- Errors returned by `URLService`, each carrying its Go error text. -/
inductive URLServiceErr where
  /-- `fmt.Errorf("short code not found")` in `GetOriginalURL`. -/
  | linkNotFound : URLServiceErr
  /-- `fmt.Errorf("URL has expired")` in `GetOriginalURL`. -/
  | linkExpired : URLServiceErr
  /-- `fmt.Errorf("custom code must be between 3 and 20 characters")`. -/
  | invalidCodeLength : URLServiceErr
  /-- `fmt.Errorf("custom code can only contain alphanumeric characters")`. -/
  | invalidCodeCharset : URLServiceErr
  /-- `fmt.Errorf("custom code already exists")`. -/
  | codeConflict : URLServiceErr
  /-- `fmt.Errorf("failed to generate unique short code after 5 retries")`. -/
  | generationExhausted : URLServiceErr
  deriving Repr, DecidableEq

/-- The `message` an `URLServiceErr` renders to (its `err.Error()` text). -/
def URLServiceErr.text : URLServiceErr → String
  | .linkNotFound => "short code not found"
  | .linkExpired => "URL has expired"
  | .invalidCodeLength => "custom code must be between 3 and 20 characters"
  | .invalidCodeCharset => "custom code can only contain alphanumeric characters"
  | .codeConflict => "custom code already exists"
  | .generationExhausted => "failed to generate unique short code after 5 retries"

/-- The row `SELECT ... FROM urls WHERE short_code = ?` returns (if any). -/
def findByCode (urls : List URLRec) (code : String) : Option URLRec :=
  urls.find? (fun u => u.shortCode = code)

/-- `URLService.GetOriginalURL`: look the code up; `sql.ErrNoRows` becomes
`linkNotFound`; then `url.ExpiresAt != nil && time.Now().After(*url.ExpiresAt)`
becomes `linkExpired`; otherwise the record is returned. -/
def GetOriginalURL (urls : List URLRec) (now : Int) (shortCode : String) :
    Except URLServiceErr URLRec :=
  match findByCode urls shortCode with
  | none => .error .linkNotFound
  | some url =>
      match url.expiresAt with
      | some t => if now > t then .error .linkExpired else .ok url
      | none => .ok url

/-- `URLService.IncrementClickCount`: `UPDATE urls SET click_count =
click_count + 1 WHERE short_code = ?`.  The statement succeeds whether or not
any row matches, so the Go error is always `nil`; the result pairs the
(absent) error with the updated table. -/
def IncrementClickCount (urls : List URLRec) (shortCode : String) :
    Option String × List URLRec :=
  (none,
    urls.map (fun u =>
      if u.shortCode = shortCode then { u with clickCount := u.clickCount + 1 }
      else u))

/-- `URLService.shortCodeExists`: `SELECT COUNT(*) FROM urls WHERE
short_code = ?`, then `count > 0`. -/
def shortCodeExists (urls : List URLRec) (shortCode : String) : Bool :=
  (urls.filter (fun u => u.shortCode = shortCode)).length > 0

/-- `generateRandomCode(length)`: one character per position, each drawn as
`charset[randomIndex]` with `randomIndex ← rand.Int(rand.Reader, 62)`; the
draw at position `j` is `draw j`. -/
def generateRandomCode (length : Nat) (draw : Nat → Fin 62) : String :=
  ⟨(List.range length).map (fun j => charset.get ((draw j).cast (by decide)))⟩

/-- The code produced at loop iteration `i` of `generateUniqueShortCode`. -/
def genAttempt (rand : Nat → Nat → Fin 62) (i : Nat) : String :=
  generateRandomCode shortCodeLength (rand i)

/-- The `for i := 0; i < maxRetries; i++` loop of `generateUniqueShortCode`:
`fuel` iterations remain and `i` is the current index. -/
def genLoop (urls : List URLRec) (rand : Nat → Nat → Fin 62) :
    Nat → Nat → Except URLServiceErr String
  | 0, _ => .error .generationExhausted
  | fuel + 1, i =>
      let code := genAttempt rand i
      if shortCodeExists urls code then genLoop urls rand fuel (i + 1)
      else .ok code

/-- `URLService.generateUniqueShortCode`: up to `maxRetries = 5` attempts,
failing with `generationExhausted` when all collide. -/
def generateUniqueShortCode (urls : List URLRec) (rand : Nat → Nat → Fin 62) :
    Except URLServiceErr String :=
  genLoop urls rand maxRetries 0

/-- Go `len(code)` is the UTF-8 byte length of the string. -/
def goLen (s : String) : Nat := s.utf8ByteSize

/-- `URLService.validateCustomCode`: length check (`len(code) < 3 ||
len(code) > 20`), then per-character `strings.ContainsRune(charset, char)`,
then the existence pre-check.  `none` means the code was accepted. -/
def validateCustomCode (urls : List URLRec) (code : String) :
    Option URLServiceErr :=
  if goLen code < 3 ∨ goLen code > 20 then some .invalidCodeLength
  else if ¬ (code.data.all (fun c => charset.contains c)) then
    some .invalidCodeCharset
  else if shortCodeExists urls code then some .codeConflict
  else none

/-!
### Analytics service (analytics_service.go)

Every `clicks` row is written by `RecordClick`, which always supplies a Go
string for each column, so no column is SQL `NULL` and the `COALESCE`
wrappers in the queries are identities.
-/

/-- The rows `... FROM clicks WHERE url_short_code = ?` ranges over. -/
def matchingClicks (clicks : List Click) (code : String) : List Click :=
  clicks.filter (fun k => k.urlShortCode = code)

/-- `AnalyticsService.getTotalClicks`: `SELECT COUNT(*) FROM clicks WHERE
url_short_code = ?`. -/
def getTotalClicks (clicks : List Click) (code : String) : Nat :=
  (matchingClicks clicks code).length

/-- `AnalyticsService.getUniqueVisitors`: `SELECT COUNT(DISTINCT ip_address)
FROM clicks WHERE url_short_code = ?`. -/
def getUniqueVisitors (clicks : List Click) (code : String) : Nat :=
  ((matchingClicks clicks code).map (fun k => k.ipAddress)).dedup.length

/-- The `GROUP BY country` result of `getClicksByCountry`'s query: one
`(country, COUNT(*))` row per distinct country among the matching clicks
whose country is nonempty (the `COALESCE(country,'Unknown') != ''` filter).
Group order is taken as first appearance in the table. -/
def countryRows (clicks : List Click) (code : String) : List (String × Nat) :=
  let m := (matchingClicks clicks code).filter (fun k => k.country ≠ "")
  ((m.map (fun k => k.country)).dedup).map
    (fun c => (c, (m.filter (fun k => k.country = c)).length))

/-- `ORDER BY count DESC LIMIT 10` applied to the grouped rows.  The SQL
leaves the relative order of equal counts unspecified; it is modelled as a
stable sort of the grouped rows. -/
def sqlCountryRows (clicks : List Click) (code : String) :
    List (String × Nat) :=
  ((countryRows clicks code).insertionSort (fun p q => q.2 ≤ p.2)).take 10

/-- Byte-lexicographic string order (the order `encoding/json` renders map
keys in), structurally on the character lists. -/
def lexLe : List Char → List Char → Bool
  | [], _ => true
  | _ :: _, [] => false
  | x :: xs, y :: ys => if x = y then lexLe xs ys else decide (x < y)

/-- A Go `map[string]int` filled by `result[country] = count` row by row,
observed as its canonical entry sequence: Go maps are unordered (iteration
order is randomized; `encoding/json` renders the keys in ascending
byte-lexicographic order), so the content is read back sorted by key.
Assignment overwrites. -/
def goMapEntries (rows : List (String × Nat)) : List (String × Nat) :=
  (rows.foldl (fun m p => m.filter (fun q => q.1 ≠ p.1) ++ [p]) []).insertionSort
    (fun p q => lexLe p.1.data q.1.data)

/-- `AnalyticsService.getClicksByCountry`: run the grouped/ordered/limited
query and pour the rows into a Go map. -/
def getClicksByCountry (clicks : List Click) (code : String) :
    List (String × Nat) :=
  goMapEntries (sqlCountryRows clicks code)

/-- The analytics aggregate (`models.Analytics`), restricted to the fields
the claims are about. -/
structure Analytics where
  url : URLRec
  totalClicks : Nat
  uniqueVisitors : Nat
  clicksByCountry : List (String × Nat)
  deriving Repr, DecidableEq

/-- `AnalyticsService.getURLByShortCode`: same lookup as `GetOriginalURL`
but with no expiration check. -/
def getURLByShortCode (urls : List URLRec) (code : String) :
    Except URLServiceErr URLRec :=
  match findByCode urls code with
  | none => .error .linkNotFound
  | some url => .ok url

/-- `AnalyticsService.GetAnalytics`: fails exactly when the lookup does;
otherwise assembles the aggregates from the click log. -/
def GetAnalytics (urls : List URLRec) (clicks : List Click) (code : String) :
    Except URLServiceErr Analytics :=
  match getURLByShortCode urls code with
  | .error e => .error e
  | .ok url =>
      .ok { url := url
            totalClicks := getTotalClicks clicks code
            uniqueVisitors := getUniqueVisitors clicks code
            clicksByCountry := getClicksByCountry clicks code }

/-!
### Admission controller (middleware rate limiter)

The Go `map[string]*visitor` is an association list with at most one entry
per key; `visitors[ip] = &v` replaces the entry when the key is present and
adds it otherwise, and the in-place mutations of the pointed-to `visitor`
are replacements of the entry's value.  Durations are in seconds.
-/

/-- The per-identity record `visitor{lastSeen, requests}`. -/
structure Visitor where
  lastSeen : Int
  requests : Nat
  deriving Repr, DecidableEq

/-- The rate limiter's `visitors` map. -/
abbrev RLState := List (String × Visitor)

/-- `timeWindow = 1 * time.Minute`, in seconds. -/
def timeWindow : Int := 60

/-- `maxRequests = 10`. -/
def maxRequests : Nat := 10

/-- `RateLimiter.cleanup`: drop every entry with
`now.Sub(v.lastSeen) > timeWindow*2`. -/
def cleanup (now : Int) (m : RLState) : RLState :=
  m.filter (fun p => ¬ (now - p.2.lastSeen > timeWindow * 2))

/-- Map lookup `v, exists := rl.visitors[ip]`. -/
def findVisitor (ip : String) (m : RLState) : Option Visitor :=
  (m.find? (fun p => p.1 = ip)).map (fun p => p.2)

/-- Map write `rl.visitors[ip] = &v` (also covers the in-place field
mutations of an existing entry). -/
def setVisitor (ip : String) (v : Visitor) (m : RLState) : RLState :=
  if m.any (fun p => p.1 = ip) then
    m.map (fun p => if p.1 = ip then (ip, v) else p)
  else m ++ [(ip, v)]

/-- `RateLimiter.allowRequest`: cleanup, then the four-way decision of
middleware.go lines 111-141.  Returns the admission verdict and the new
map. -/
def allowRequest (ip : String) (now : Int) (m : RLState) : Bool × RLState :=
  match findVisitor ip (cleanup now m) with
  | none => (true, setVisitor ip ⟨now, 1⟩ (cleanup now m))
  | some v =>
      if now - v.lastSeen > timeWindow then
        (true, setVisitor ip ⟨now, 1⟩ (cleanup now m))
      else if v.requests ≥ maxRequests then (false, cleanup now m)
      else (true, setVisitor ip ⟨now, v.requests + 1⟩ (cleanup now m))

/-- `RateLimitMiddleware`'s reaction to one request: `none` means the
request is passed on; `some (status, text)` is the 429 rejection written by
`http.Error`. -/
def rateLimitGate (ip : String) (now : Int) (m : RLState) :
    Option (Nat × String) × RLState :=
  let r := allowRequest ip now m
  (if r.1 then none else some (429, "Rate limit exceeded. Try again later."),
   r.2)

/-- Feed a time-stamped request sequence from one identity through
`allowRequest`, counting admissions. -/
def runSeq (ip : String) : List Int → RLState → Nat × RLState
  | [], m => (0, m)
  | t :: ts, m =>
      let r := allowRequest ip t m
      let rest := runSeq ip ts r.2
      ((if r.1 then 1 else 0) + rest.1, rest.2)

/-!
### Client-identity extraction

Go strings are modelled as `List Char` here (all inputs of interest are
ASCII, so byte indices and character indices agree).  `strings.TrimSpace`
trims Unicode whitespace; `Char.isWhitespace` plays that role.
-/

/-- `strings.Split(s, sep)[0]` for a one-character separator: everything
before the first occurrence (the whole string when absent). -/
def takeUntil (c : Char) : List Char → List Char
  | [] => []
  | x :: xs => if x = c then [] else x :: takeUntil c xs

/-- `strings.TrimSpace`. -/
def trimSpace (s : List Char) : List Char :=
  ((s.dropWhile Char.isWhitespace).reverse.dropWhile Char.isWhitespace).reverse

/-- `strings.Index(s, c)` for a one-character needle, as an `Option`:
the index of the first occurrence. -/
def idxOfChar (c : Char) : List Char → Option Nat
  | [] => none
  | x :: xs => if x = c then some 0 else (idxOfChar c xs).map (fun i => i + 1)

/-- `strings.LastIndex(s, c)` for a one-character needle, as an `Option`:
the index of the last occurrence. -/
def lastIdxOf (c : Char) : List Char → Option Nat
  | [] => none
  | x :: xs =>
      match lastIdxOf c xs with
      | some i => some (i + 1)
      | none => if x = c then some 0 else none

/-- The shared tail of both extractors: `if strings.Contains(ip, ":") {
return ip[:strings.LastIndex(ip, ":")] }; return ip`. -/
def cutAtLastColon (ip : List Char) : List Char :=
  if ip.contains ':' then
    match lastIdxOf ':' ip with
    | some i => ip.take i
    | none => ip
  else ip

/-- `getClientIP` of middleware.go: forwarded-for first entry (trimmed),
else real-IP, else `RemoteAddr` cut at its FIRST colon
(`strings.Split(ip, ":")[0]`). -/
def middlewareGetClientIP (xff xri remote : List Char) : List Char :=
  if xff ≠ [] then trimSpace (takeUntil ',' xff)
  else if xri ≠ [] then xri
  else if remote.contains ':' then takeUntil ':' remote
  else remote

/-- `URLHandler.getClientIP` of url_handler.go: same header fallbacks, then
a bracket-aware `RemoteAddr` extraction: `[ip]:port` yields the text inside
the brackets, otherwise the string is cut at its LAST colon. -/
def handlerGetClientIP (xff xri remote : List Char) : List Char :=
  if xff ≠ [] then trimSpace (takeUntil ',' xff)
  else if xri ≠ [] then xri
  else if remote.head? = some '[' then
    match idxOfChar ']' remote with
    | some endBracket =>
        if 0 < endBracket then (remote.drop 1).take (endBracket - 1)
        else cutAtLastColon remote
    | none => cutAtLastColon remote
  else cutAtLastColon remote

/-!
### Redirect handler (url_handler.go, RedirectURL)
-/

/-- The observable HTTP response of `RedirectURL`: a redirect written by
`http.Redirect`, or the JSON error body written by `respondWithError`. -/
inductive HTTPResp where
  | redirect (status : Nat) (location : String) : HTTPResp
  | failure (status : Nat) (error : String) (message : String) : HTTPResp
  deriving Repr, DecidableEq

/-- `URLHandler.RedirectURL`: empty code → 400; resolution error → 404 with
`error = "URL not found"` and `message = err.Error()`; success → 301 to the
stored destination. -/
def RedirectURL (urls : List URLRec) (now : Int) (shortCode : String) :
    HTTPResp :=
  if shortCode = "" then .failure 400 "Missing short code" ""
  else
    match GetOriginalURL urls now shortCode with
    | .error e => .failure 404 "URL not found" e.text
    | .ok url => .redirect 301 url.originalURL

/-!
## Helper lemmas
-/

lemma findByCode_eq_none_iff (urls : List URLRec) (code : String) :
    findByCode urls code = none ↔ ∀ u ∈ urls, u.shortCode ≠ code := by
  simp [findByCode, List.find?_eq_none]

lemma findByCode_eq_some (urls : List URLRec) (code : String) (u : URLRec)
    (hnd : (urls.map (fun r => r.shortCode)).Nodup)
    (hu : u ∈ urls) (hc : u.shortCode = code) :
    findByCode urls code = some u := by
  induction urls with
  | nil => cases hu
  | cons r rest ih =>
      simp only [List.map_cons, List.nodup_cons] at hnd
      by_cases hr : r.shortCode = code
      · have hur : u = r := by
          rcases List.mem_cons.mp hu with h | h
          · exact h
          · exfalso
            have hm : u.shortCode ∈ rest.map (fun x => x.shortCode) :=
              List.mem_map_of_mem (fun x => x.shortCode) h
            rw [hc, ← hr] at hm
            exact hnd.1 hm
        simp [findByCode, List.find?_cons, hr, hur]
      · have hur : u ∈ rest := by
          rcases List.mem_cons.mp hu with h | h
          · exact absurd (h ▸ hc) hr
          · exact h
        simpa [findByCode, List.find?_cons, hr] using ih hnd.2 hur

/-!
## Claims
-/

/-- C1: resolution contract of `GetOriginalURL`.  If no Link carries the
code, resolution fails with `linkNotFound`; if the Link exists and its
`expiresAt` is set and strictly before `now`, it fails with `linkExpired`
(however long ago that was); otherwise the Link is returned, and a Link
with no `expiresAt` resolves at every time.  The store is assumed to keep
codes unique (its `short_code UNIQUE` constraint). -/
theorem getOriginalURL_contract (urls : List URLRec) (now : Int)
    (code : String) (hnd : (urls.map (fun r => r.shortCode)).Nodup) :
    ((∀ r ∈ urls, r.shortCode ≠ code) →
      GetOriginalURL urls now code = .error .linkNotFound) ∧
    (∀ u ∈ urls, u.shortCode = code →
      (∀ t, u.expiresAt = some t → t < now →
        GetOriginalURL urls now code = .error .linkExpired) ∧
      (∀ t, u.expiresAt = some t → now ≤ t →
        GetOriginalURL urls now code = .ok u) ∧
      (u.expiresAt = none → ∀ m : Int, GetOriginalURL urls m code = .ok u)) := by
  constructor
  · intro h
    have : findByCode urls code = none := (findByCode_eq_none_iff urls code).mpr h
    simp [GetOriginalURL, this]
  · intro u hu hc
    have hfind : findByCode urls code = some u := findByCode_eq_some urls code u hnd hu hc
    refine ⟨?_, ?_, ?_⟩
    · intro t ht hlt
      simp [GetOriginalURL, hfind, ht, hlt]
    · intro t ht hle
      simp [GetOriginalURL, hfind, ht, not_lt.mpr hle]
    · intro ht m
      have hfind' : findByCode urls code = some u :=
        findByCode_eq_some urls code u hnd hu hc
      simp [GetOriginalURL, hfind', ht]

/-- Witness for C1 at a concrete store: a Link with `expiresAt = 5` is
expired at time 10, an absent code is not found, and the same Link resolves
at time 3 and, lacking an expiry, a second Link resolves at an arbitrary
late time. -/
theorem getOriginalURL_contract_witness :
    GetOriginalURL
      [(⟨1, "abc", "https://example.com", 0, some 5, 0, "9.9.9.9", false⟩ :
        URLRec)] 10 "abc" = .error .linkExpired ∧
    GetOriginalURL
      [(⟨1, "abc", "https://example.com", 0, some 5, 0, "9.9.9.9", false⟩ :
        URLRec)] 10 "zzz" = .error .linkNotFound ∧
    GetOriginalURL
      [(⟨1, "abc", "https://example.com", 0, some 5, 0, "9.9.9.9", false⟩ :
        URLRec)] 3 "abc" =
      .ok ⟨1, "abc", "https://example.com", 0, some 5, 0, "9.9.9.9", false⟩ ∧
    GetOriginalURL
      [(⟨1, "abc", "https://example.com", 0, none, 0, "9.9.9.9", false⟩ :
        URLRec)] 1000000 "abc" =
      .ok ⟨1, "abc", "https://example.com", 0, none, 0, "9.9.9.9", false⟩ := by
  refine ⟨?_, ?_, ?_, ?_⟩
  · exact ((getOriginalURL_contract _ 10 "abc" (by decide)).2
      ⟨1, "abc", "https://example.com", 0, some 5, 0, "9.9.9.9", false⟩
      (by simp) (by decide)).1 5 rfl (by decide)
  · exact (getOriginalURL_contract _ 10 "zzz" (by decide)).1 (by decide)
  · exact ((getOriginalURL_contract _ 3 "abc" (by decide)).2
      ⟨1, "abc", "https://example.com", 0, some 5, 0, "9.9.9.9", false⟩
      (by simp) (by decide)).2.1 5 rfl (by decide)
  · exact ((getOriginalURL_contract _ 0 "abc" (by decide)).2
      ⟨1, "abc", "https://example.com", 0, none, 0, "9.9.9.9", false⟩
      (by simp) (by decide)).2.2 rfl 1000000

lemma genLoop_ok (urls : List URLRec) (rand : Nat → Nat → Fin 62) :
    ∀ (fuel i : Nat) (code : String), genLoop urls rand fuel i = .ok code →
      ∃ j, i ≤ j ∧ j < i + fuel ∧ code = genAttempt rand j ∧
        shortCodeExists urls code = false := by
  intro fuel
  induction fuel with
  | zero => intro i code h; simp [genLoop] at h
  | succ n ih =>
      intro i code h
      unfold genLoop at h
      by_cases hex : shortCodeExists urls (genAttempt rand i) = true
      · rw [if_pos hex] at h
        obtain ⟨j, h1, h2, h3, h4⟩ := ih (i + 1) code h
        exact ⟨j, by omega, by omega, h3, h4⟩
      · rw [if_neg hex] at h
        cases h
        exact ⟨i, le_refl i, by omega, rfl, by simpa using hex⟩

lemma genLoop_exhausted (urls : List URLRec) (rand : Nat → Nat → Fin 62) :
    ∀ (fuel i : Nat),
      (∀ j, i ≤ j → j < i + fuel →
        shortCodeExists urls (genAttempt rand j) = true) →
      genLoop urls rand fuel i = .error .generationExhausted := by
  intro fuel
  induction fuel with
  | zero => intro i _; rfl
  | succ n ih =>
      intro i h
      unfold genLoop
      rw [if_pos (h i (le_refl i) (by omega))]
      exact ih (i + 1) (fun j hj1 hj2 => h j (by omega) (by omega))

/-- C4: every machine-generated code has exactly 6 characters drawn from
the 62-character alphabet; generation retries colliding codes up to the
bound of 5 attempts, a successful result is collision-free against the
store, and when all 5 attempts collide it fails with
`generationExhausted`. -/
theorem generator_contract (urls : List URLRec) (rand : Nat → Nat → Fin 62) :
    (∀ i, (genAttempt rand i).data.length = 6 ∧
      ∀ c ∈ (genAttempt rand i).data, c ∈ charset) ∧
    (∀ code, generateUniqueShortCode urls rand = .ok code →
      code.data.length = 6 ∧ (∀ c ∈ code.data, c ∈ charset) ∧
      shortCodeExists urls code = false) ∧
    ((∀ i < maxRetries, shortCodeExists urls (genAttempt rand i) = true) →
      generateUniqueShortCode urls rand = .error .generationExhausted) := by
  have hshape : ∀ i, (genAttempt rand i).data.length = 6 ∧
      ∀ c ∈ (genAttempt rand i).data, c ∈ charset := by
    intro i
    constructor
    · simp [genAttempt, generateRandomCode, shortCodeLength]
    · intro c hc
      simp only [genAttempt, generateRandomCode, List.mem_map] at hc
      obtain ⟨j, _, hj⟩ := hc
      rw [← hj]
      exact List.get_mem charset _ _
  refine ⟨hshape, ?_, ?_⟩
  · intro code h
    obtain ⟨j, _, _, hcode, hfree⟩ :=
      genLoop_ok urls rand maxRetries 0 code h
    exact ⟨hcode ▸ (hshape j).1, hcode ▸ (hshape j).2, hfree⟩
  · intro h
    exact genLoop_exhausted urls rand maxRetries 0
      (fun j hj1 hj2 => h j (by omega))

/-- Witness for C4: with the oracle that always draws index 0 the attempt
is `"aaaaaa"`; on the empty store generation succeeds with a well-formed
fresh code, and on a store already holding `"aaaaaa"` all five attempts
collide and generation is exhausted. -/
theorem generator_contract_witness :
    ("aaaaaa".data.length = 6 ∧ (∀ c ∈ "aaaaaa".data, c ∈ charset) ∧
      shortCodeExists [] "aaaaaa" = false) ∧
    generateUniqueShortCode
      [(⟨1, "aaaaaa", "https://example.com", 0, none, 0, "9.9.9.9", false⟩ :
        URLRec)]
      (fun _ _ => (⟨0, by norm_num⟩ : Fin 62)) = .error .generationExhausted := by
  constructor
  · exact (generator_contract []
      (fun _ _ => (⟨0, by norm_num⟩ : Fin 62))).2.1 "aaaaaa" (by rfl)
  · exact (generator_contract _
      (fun _ _ => (⟨0, by norm_num⟩ : Fin 62))).2.2 (by decide)

lemma shortCodeExists_iff (urls : List URLRec) (code : String) :
    shortCodeExists urls code = true ↔ ∃ u ∈ urls, u.shortCode = code := by
  simp [shortCodeExists, List.length_pos, List.filter_eq_nil_iff]

lemma charset_utf8Size : ∀ c ∈ charset, c.utf8Size = 1 := by decide

lemma goLen_of_ascii (s : String) (h : ∀ c ∈ s.data, c ∈ charset) :
    goLen s = s.data.length := by
  cases s with
  | mk data =>
      simp only [goLen, String.utf8ByteSize_mk]
      induction data with
      | nil => rfl
      | cons c cs ih =>
          simp only [String.utf8Len_cons, List.length_cons]
          have h1 : c.utf8Size = 1 := charset_utf8Size c (h c (by simp))
          have h2 := ih (fun x hx => h x (by simp [hx]))
          omega

lemma all_charset_iff (code : String) :
    (code.data.all (fun c => charset.contains c) = true) ↔
      ∀ c ∈ code.data, c ∈ charset := by
  simp [List.all_eq_true]

/-- C5: a custom code is accepted exactly when its length is in `[3,20]`,
every character is in the alphabet, and no Link already carries it; a code
violating length or charset is rejected with one of the two
`InvalidCustomCode` validation errors, and a well-formed but taken code is
rejected with `codeConflict`.  Length is in characters; for accepted codes
(alphabet-only, hence ASCII) this agrees with Go's byte length. -/
theorem validateCustomCode_contract (urls : List URLRec) (code : String) :
    (validateCustomCode urls code = none ↔
      (3 ≤ code.data.length ∧ code.data.length ≤ 20 ∧
        (∀ c ∈ code.data, c ∈ charset) ∧ ∀ u ∈ urls, u.shortCode ≠ code)) ∧
    ((code.data.length < 3 ∨ 20 < code.data.length ∨
        ∃ c ∈ code.data, c ∉ charset) →
      validateCustomCode urls code = some .invalidCodeLength ∨
      validateCustomCode urls code = some .invalidCodeCharset) ∧
    ((3 ≤ code.data.length ∧ code.data.length ≤ 20 ∧
        ∀ c ∈ code.data, c ∈ charset) →
      (∃ u ∈ urls, u.shortCode = code) →
      validateCustomCode urls code = some .codeConflict) := by
  refine ⟨?_, ?_, ?_⟩
  · constructor
    · intro h
      unfold validateCustomCode at h
      by_cases h1 : goLen code < 3 ∨ goLen code > 20
      · rw [if_pos h1] at h; cases h
      · rw [if_neg h1] at h
        by_cases h2 : code.data.all (fun c => charset.contains c) = true
        · rw [if_neg (not_not_intro h2)] at h
          by_cases h3 : shortCodeExists urls code = true
          · rw [if_pos h3] at h; cases h
          · have hchar := (all_charset_iff code).mp h2
            have hlen := goLen_of_ascii code hchar
            refine ⟨by omega, by omega, hchar, ?_⟩
            intro u hu hc
            exact h3 ((shortCodeExists_iff urls code).mpr ⟨u, hu, hc⟩)
        · rw [if_pos h2] at h; cases h
    · rintro ⟨hl, hu, hchar, hfree⟩
      have hlen := goLen_of_ascii code hchar
      unfold validateCustomCode
      rw [if_neg (by omega)]
      rw [if_neg (not_not_intro ((all_charset_iff code).mpr hchar))]
      rw [if_neg (by
        intro hx
        obtain ⟨u, hu1, hu2⟩ := (shortCodeExists_iff urls code).mp hx
        exact hfree u hu1 hu2)]
  · intro h
    unfold validateCustomCode
    by_cases h1 : goLen code < 3 ∨ goLen code > 20
    · rw [if_pos h1]; exact Or.inl rfl
    · rw [if_neg h1]
      have hbad : ¬ (code.data.all (fun c => charset.contains c) = true) := by
        intro hall
        have hchar := (all_charset_iff code).mp hall
        have hlen := goLen_of_ascii code hchar
        rcases h with h | h | ⟨c, hc1, hc2⟩
        · omega
        · omega
        · exact hc2 (hchar c hc1)
      rw [if_pos hbad]
      exact Or.inr rfl
  · rintro ⟨hl, hu, hchar⟩ ⟨u, hu1, hu2⟩
    have hlen := goLen_of_ascii code hchar
    unfold validateCustomCode
    rw [if_neg (by omega)]
    rw [if_neg (not_not_intro ((all_charset_iff code).mpr hchar))]
    rw [if_pos ((shortCodeExists_iff urls code).mpr ⟨u, hu1, hu2⟩)]

/-- Witness for C5: `"my_link"` has an underscore and is rejected as
invalid; `"ab"` is too short; `"mylink"` is accepted on a store that does
not hold it and conflicts on a store that does. -/
theorem validateCustomCode_contract_witness :
    (validateCustomCode [] "ab" = some .invalidCodeLength ∨
      validateCustomCode [] "ab" = some .invalidCodeCharset) ∧
    (validateCustomCode [] "my_link" = some .invalidCodeLength ∨
      validateCustomCode [] "my_link" = some .invalidCodeCharset) ∧
    validateCustomCode [] "mylink" = none ∧
    validateCustomCode
      [(⟨1, "mylink", "https://example.com", 0, none, 0, "9.9.9.9", false⟩ :
        URLRec)] "mylink" = some .codeConflict := by
  refine ⟨?_, ?_, ?_, ?_⟩
  · exact (validateCustomCode_contract [] "ab").2.1 (by decide)
  · exact (validateCustomCode_contract [] "my_link").2.1 (by decide)
  · exact ((validateCustomCode_contract [] "mylink").1).mpr (by decide)
  · exact (validateCustomCode_contract _ "mylink").2.2 (by decide)
      ⟨⟨1, "mylink", "https://example.com", 0, none, 0, "9.9.9.9", false⟩,
        by simp, rfl⟩

/-- C6: `GetAnalytics` fails with `linkNotFound` exactly when no Link
carries the code — expiration is never consulted, so analytics of expired
Links stay viewable — and on success `totalClicks` is the number of stored
click events whose code matches and `uniqueVisitors` the number of distinct
client addresses among them. -/
theorem getAnalytics_contract (urls : List URLRec) (clicks : List Click)
    (code : String) :
    (GetAnalytics urls clicks code = .error .linkNotFound ↔
      ∀ u ∈ urls, u.shortCode ≠ code) ∧
    (∀ a, GetAnalytics urls clicks code = .ok a →
      a.totalClicks = clicks.countP (fun k => k.urlShortCode = code) ∧
      a.uniqueVisitors =
        ((clicks.filter (fun k => k.urlShortCode = code)).map
          (fun k => k.ipAddress)).toFinset.card) := by
  constructor
  · constructor
    · intro h u hu hc
      unfold GetAnalytics getURLByShortCode at h
      have : findByCode urls code = some u :=
        match hfind : findByCode urls code with
        | none => by
            have := (findByCode_eq_none_iff urls code).mp hfind u hu
            exact absurd hc this
        | some v => by rw [hfind] at h; cases h
      rw [this] at h
      cases h
    · intro h
      have hnone : findByCode urls code = none :=
        (findByCode_eq_none_iff urls code).mpr h
      simp [GetAnalytics, getURLByShortCode, hnone]
  · intro a ha
    unfold GetAnalytics getURLByShortCode at ha
    match hfind : findByCode urls code with
    | none => rw [hfind] at ha; cases ha
    | some v =>
        rw [hfind] at ha
        cases ha
        constructor
        · simp [getTotalClicks, matchingClicks, List.countP_eq_length_filter]
        · simp [getUniqueVisitors, matchingClicks, List.card_toFinset]

/-- Witness for C6: a store with one Link `"abc"` (already expired — its
`expiresAt` is in the past of every positive time) and four clicks, three
of them for `"abc"` from two distinct addresses: analytics of the missing
code `"zzz"` is `linkNotFound`, and the aggregate for `"abc"` counts 3
total clicks and 2 unique visitors. -/
theorem getAnalytics_contract_witness :
    GetAnalytics
      [(⟨1, "abc", "https://example.com", 0, some 1, 0, "9.9.9.9", false⟩ :
        URLRec)]
      [(⟨"abc", "1.1.1.1", "", "", "", "", 0⟩ : Click),
        ⟨"abc", "1.1.1.1", "", "", "", "", 1⟩,
        ⟨"abc", "2.2.2.2", "", "", "", "", 2⟩,
        ⟨"zzz", "3.3.3.3", "", "", "", "", 3⟩] "zzz" =
      .error .linkNotFound ∧
    (⟨⟨1, "abc", "https://example.com", 0, some 1, 0, "9.9.9.9", false⟩,
        3, 2, []⟩ : Analytics).totalClicks =
      ([(⟨"abc", "1.1.1.1", "", "", "", "", 0⟩ : Click),
        ⟨"abc", "1.1.1.1", "", "", "", "", 1⟩,
        ⟨"abc", "2.2.2.2", "", "", "", "", 2⟩,
        ⟨"zzz", "3.3.3.3", "", "", "", "", 3⟩].countP
          (fun k => k.urlShortCode = "abc")) ∧
    (⟨⟨1, "abc", "https://example.com", 0, some 1, 0, "9.9.9.9", false⟩,
        3, 2, []⟩ : Analytics).uniqueVisitors =
      (([(⟨"abc", "1.1.1.1", "", "", "", "", 0⟩ : Click),
        ⟨"abc", "1.1.1.1", "", "", "", "", 1⟩,
        ⟨"abc", "2.2.2.2", "", "", "", "", 2⟩,
        ⟨"zzz", "3.3.3.3", "", "", "", "", 3⟩].filter
          (fun k => k.urlShortCode = "abc")).map
            (fun k => k.ipAddress)).toFinset.card := by
  have h := getAnalytics_contract
    [(⟨1, "abc", "https://example.com", 0, some 1, 0, "9.9.9.9", false⟩ :
      URLRec)]
    [(⟨"abc", "1.1.1.1", "", "", "", "", 0⟩ : Click),
      ⟨"abc", "1.1.1.1", "", "", "", "", 1⟩,
      ⟨"abc", "2.2.2.2", "", "", "", "", 2⟩,
      ⟨"zzz", "3.3.3.3", "", "", "", "", 3⟩] "abc"
  have hz := getAnalytics_contract
    [(⟨1, "abc", "https://example.com", 0, some 1, 0, "9.9.9.9", false⟩ :
      URLRec)]
    [(⟨"abc", "1.1.1.1", "", "", "", "", 0⟩ : Click),
      ⟨"abc", "1.1.1.1", "", "", "", "", 1⟩,
      ⟨"abc", "2.2.2.2", "", "", "", "", 2⟩,
      ⟨"zzz", "3.3.3.3", "", "", "", "", 3⟩] "zzz"
  exact ⟨hz.1.mpr (by decide), (h.2 _ (by rfl)).1, (h.2 _ (by rfl)).2⟩

/-- C10: incrementing the click counter of a code for which no Link exists
reports no error and leaves the table unchanged: the `UPDATE` matches zero
rows and `Exec` still succeeds. -/
theorem incrementClickCount_missing_noop (urls : List URLRec) (code : String)
    (h : ∀ u ∈ urls, u.shortCode ≠ code) :
    IncrementClickCount urls code = (none, urls) := by
  unfold IncrementClickCount
  have hmap :
      urls.map (fun u =>
        if u.shortCode = code then { u with clickCount := u.clickCount + 1 }
        else u) = urls := by
    calc urls.map (fun u =>
            if u.shortCode = code then
              { u with clickCount := u.clickCount + 1 }
            else u)
        = urls.map id := List.map_congr_left (fun u hu => by simp [h u hu])
      _ = urls := List.map_id urls
  rw [hmap]

/-- Witness for C10: a one-row store and a code that matches nothing. -/
theorem incrementClickCount_missing_noop_witness :
    IncrementClickCount
      [(⟨1, "abc", "https://example.com", 0, none, 7, "9.9.9.9", false⟩ :
        URLRec)] "zzz" =
      (none,
        [(⟨1, "abc", "https://example.com", 0, none, 7, "9.9.9.9", false⟩ :
          URLRec)]) :=
  incrementClickCount_missing_noop _ "zzz" (by decide)

lemma find?_filter_of_found {α : Type} (p q : α → Bool) :
    ∀ (l : List α) (a : α), l.find? p = some a → q a = true →
      (l.filter q).find? p = some a := by
  intro l
  induction l with
  | nil => intro a h; cases h
  | cons x xs ih =>
      intro a h hq
      by_cases hx : p x = true
      · rw [List.find?_cons_of_pos _ hx] at h
        cases h
        rw [List.filter_cons_of_pos hq]
        exact List.find?_cons_of_pos _ hx
      · rw [List.find?_cons_of_neg _ hx] at h
        by_cases hqx : q x = true
        · rw [List.filter_cons_of_pos hqx]
          rw [List.find?_cons_of_neg _ hx]
          exact ih a h hq
        · rw [List.filter_cons_of_neg (by simpa using hqx)]
          exact ih a h hq

lemma findVisitor_cleanup (ip : String) (now : Int) (m : RLState)
    (v : Visitor) (hfind : findVisitor ip m = some v)
    (hlive : ¬ (now - v.lastSeen > timeWindow * 2)) :
    findVisitor ip (cleanup now m) = some v := by
  unfold findVisitor at hfind ⊢
  unfold cleanup
  match hp : m.find? (fun p => p.1 = ip) with
  | none => rw [hp] at hfind; cases hfind
  | some a =>
      rw [hp] at hfind
      have ha : a.2 = v := by simpa using hfind
      rw [find?_filter_of_found _ _ m a hp (by
        simp only [decide_eq_true_eq]
        rw [ha]
        exact hlive)]
      simp [ha]

lemma allowRequest_single (ip : String) (last : Int) (r : Nat) (now : Int)
    (h1 : now - last ≤ timeWindow) (h2 : 0 ≤ now - last) :
    allowRequest ip now [(ip, ⟨last, r⟩)] =
      if r ≥ maxRequests then (false, [(ip, ⟨last, r⟩)])
      else (true, [(ip, ⟨now, r + 1⟩)]) := by
  have htw : (timeWindow : Int) = 60 := rfl
  have hclean : cleanup now [(ip, ⟨last, r⟩)] = [(ip, ⟨last, r⟩)] := by
    unfold cleanup
    rw [List.filter_cons_of_pos (by
      simp only [decide_eq_true_eq]
      rw [htw] at h1 ⊢
      omega), List.filter_nil]
  have hfind : findVisitor ip (cleanup now [(ip, ⟨last, r⟩)]) =
      some ⟨last, r⟩ := by
    rw [hclean]
    unfold findVisitor
    rw [List.find?_cons_of_pos _ (by simp)]
    rfl
  unfold allowRequest
  rw [hfind]
  show (if now - last > timeWindow then _
    else if r ≥ maxRequests then _ else _) = _
  rw [if_neg (not_lt.mpr h1)]
  by_cases hr : r ≥ maxRequests
  · rw [if_pos hr, if_pos hr, hclean]
  · rw [if_neg hr, if_neg hr, hclean]
    unfold setVisitor
    rw [if_pos (by simp)]
    simp

lemma runSeq_cons (ip : String) (t : Int) (ts : List Int) (m : RLState) :
    (runSeq ip (t :: ts) m).1 =
      (if (allowRequest ip t m).1 then 1 else 0) +
        (runSeq ip ts (allowRequest ip t m).2).1 := rfl

lemma runSeq_single (ip : String) :
    ∀ (ts : List Int) (last : Int) (r : Nat),
      1 ≤ r → r ≤ maxRequests →
      (∀ t ∈ ts, last ≤ t ∧ t - last ≤ timeWindow) →
      List.Pairwise (fun a b => a ≤ b ∧ b - a ≤ timeWindow) ts →
      (runSeq ip ts [(ip, ⟨last, r⟩)]).1 = min ts.length (maxRequests - r) := by
  intro ts
  induction ts with
  | nil => intro last r _ _ _ _; simp [runSeq]
  | cons t rest ih =>
      intro last r hr1 hr2 hts hpw
      have hlt := hts t (by simp)
      have hstep := allowRequest_single ip last r t hlt.2 (by
        have := hlt.1
        omega)
      rw [runSeq_cons]
      by_cases hr : r ≥ maxRequests
      · rw [if_pos hr] at hstep
        rw [hstep]
        have := ih last r hr1 hr2 (fun s hs => hts s (by simp [hs]))
          hpw.of_cons
        simp only [this]
        have hz : maxRequests - r = 0 := by omega
        simp [hz]
      · rw [if_neg hr] at hstep
        rw [hstep]
        have hrest : ∀ s ∈ rest, t ≤ s ∧ s - t ≤ timeWindow := by
          intro s hs
          exact (List.pairwise_cons.mp hpw).1 s hs
        have := ih t (r + 1) (by omega) (by omega) hrest hpw.of_cons
        simp only [this]
        simp only [List.length_cons, if_pos]
        unfold maxRequests at hr ⊢
        omega

/-- C2: a single identity issuing 15 requests that all fall inside one
60-second window (times are nondecreasing and any two differ by at most
`timeWindow`) is admitted at most 10 times and rejected at least 5 times,
each rejection being the middleware's 429 `RateLimitExceeded` answer;
moreover whenever the identity's stored state is within the window and its
counter has reached `maxRequests = 10`, the request is rejected. -/
theorem rateLimiter_window_bound (ip : String) (ts : List Int)
    (hlen : ts.length = 15)
    (hpw : List.Pairwise (fun a b => a ≤ b ∧ b - a ≤ timeWindow) ts) :
    (runSeq ip ts []).1 ≤ 10 ∧
    5 ≤ ts.length - (runSeq ip ts []).1 ∧
    (∀ (m : RLState) (now : Int) (v : Visitor),
      findVisitor ip m = some v → 0 ≤ now - v.lastSeen →
      now - v.lastSeen ≤ timeWindow → maxRequests ≤ v.requests →
      (allowRequest ip now m).1 = false ∧
      (rateLimitGate ip now m).1 =
        some (429, "Rate limit exceeded. Try again later.")) := by
  have hcount : (runSeq ip ts []).1 = 10 := by
    match ts, hlen, hpw with
    | t :: rest, hlen, hpw =>
        have hfirst : allowRequest ip t [] = (true, [(ip, ⟨t, 1⟩)]) := by
          unfold allowRequest cleanup findVisitor setVisitor
          simp
        rw [runSeq_cons, hfirst]
        have hrest : ∀ s ∈ rest, t ≤ s ∧ s - t ≤ timeWindow := by
          intro s hs
          exact (List.pairwise_cons.mp hpw).1 s hs
        rw [runSeq_single ip rest t 1 (le_refl 1) (by unfold maxRequests; omega)
          hrest hpw.of_cons]
        have h14 : rest.length = 14 := by simpa using hlen
        rw [h14]
        rfl
  refine ⟨by omega, by omega, ?_⟩
  intro m now v hfind h0 hwin hmax
  have hfind' : findVisitor ip (cleanup now m) = some v :=
    findVisitor_cleanup ip now m v hfind (by unfold timeWindow at hwin ⊢; omega)
  have hallow : (allowRequest ip now m).1 = false := by
    unfold allowRequest
    rw [hfind']
    show (if now - v.lastSeen > timeWindow then
        (true, setVisitor ip ⟨now, 1⟩ (cleanup now m))
      else if v.requests ≥ maxRequests then (false, cleanup now m)
      else (true,
        setVisitor ip ⟨now, v.requests + 1⟩ (cleanup now m))).1 = false
    rw [if_neg (not_lt.mpr hwin), if_pos hmax]
  refine ⟨hallow, ?_⟩
  simp [rateLimitGate, hallow]

/-- Witness for C2: the identity `"9.9.9.9"` fires 15 requests at seconds
0..14; exactly 10 pass and 5 are rejected, and a saturated in-window state
rejects with the 429 message. -/
theorem rateLimiter_window_bound_witness :
    (runSeq "9.9.9.9" [0, 1, 2, 3, 4, 5, 6, 7, 8, 9, 10, 11, 12, 13, 14]
      []).1 ≤ 10 ∧
    5 ≤ ([0, 1, 2, 3, 4, 5, 6, 7, 8, 9, 10, 11, 12, 13, 14] :
      List Int).length -
      (runSeq "9.9.9.9" [0, 1, 2, 3, 4, 5, 6, 7, 8, 9, 10, 11, 12, 13, 14]
        []).1 ∧
    (allowRequest "9.9.9.9" 30 [("9.9.9.9", ⟨0, 10⟩)]).1 = false := by
  have h := rateLimiter_window_bound "9.9.9.9"
    [0, 1, 2, 3, 4, 5, 6, 7, 8, 9, 10, 11, 12, 13, 14] (by rfl) (by decide)
  exact ⟨h.1, h.2.1,
    (h.2.2 [("9.9.9.9", ⟨0, 10⟩)] 30 ⟨0, 10⟩ (by rfl) (by decide) (by decide)
      (by decide)).1⟩

/-- Counterexample to C3: after a request at time 0 (state `⟨0, 1⟩`) a
second, admitted request at time 50 — within the 60-second window — moves
the stored window reference from 0 to 50, although the claim says
intermediate admitted requests do not modify it; and a third request at
time 70, for which `now - windowStart = 70 - 0` exceeds the window size,
is NOT reset to a count of 1 but counted as the third request, because the
code measures from the updated reference 50. -/
theorem rateLimiter_fixed_window_counterexample :
    (allowRequest "9.9.9.9" 0 []).1 = true ∧
    findVisitor "9.9.9.9" (allowRequest "9.9.9.9" 0 []).2 = some ⟨0, 1⟩ ∧
    (allowRequest "9.9.9.9" 50 (allowRequest "9.9.9.9" 0 []).2).1 = true ∧
    findVisitor "9.9.9.9"
      (allowRequest "9.9.9.9" 50 (allowRequest "9.9.9.9" 0 []).2).2 =
      some ⟨50, 2⟩ ∧
    allowRequest "9.9.9.9" 70
      (allowRequest "9.9.9.9" 50 (allowRequest "9.9.9.9" 0 []).2).2 =
      (true, [("9.9.9.9", ⟨70, 3⟩)]) := by decide

/-- C3 as amended: the limiter's window is sliding, not fixed.  The stored
reference time (`lastSeen`) is set to `now` by EVERY admitted request —
creation, post-gap reset, and in-window increments alike — is left
untouched by rejected requests, and the counter is reset to 1 exactly when
`now - lastSeen` (the gap since the last admitted request, not since the
window's first request) exceeds the 60-second window. -/
theorem rateLimiter_sliding_window (ip : String) (now : Int) (m : RLState)
    (v : Visitor) (hfind : findVisitor ip (cleanup now m) = some v) :
    (timeWindow < now - v.lastSeen →
      allowRequest ip now m =
        (true, setVisitor ip ⟨now, 1⟩ (cleanup now m))) ∧
    (now - v.lastSeen ≤ timeWindow → v.requests < maxRequests →
      allowRequest ip now m =
        (true, setVisitor ip ⟨now, v.requests + 1⟩ (cleanup now m))) ∧
    (now - v.lastSeen ≤ timeWindow → maxRequests ≤ v.requests →
      allowRequest ip now m = (false, cleanup now m)) := by
  refine ⟨?_, ?_, ?_⟩
  · intro hgap
    unfold allowRequest
    rw [hfind]
    show (if now - v.lastSeen > timeWindow then
        (true, setVisitor ip ⟨now, 1⟩ (cleanup now m))
      else if v.requests ≥ maxRequests then (false, cleanup now m)
      else (true, setVisitor ip ⟨now, v.requests + 1⟩ (cleanup now m))) = _
    rw [if_pos hgap]
  · intro hwin hlt
    unfold allowRequest
    rw [hfind]
    show (if now - v.lastSeen > timeWindow then
        (true, setVisitor ip ⟨now, 1⟩ (cleanup now m))
      else if v.requests ≥ maxRequests then (false, cleanup now m)
      else (true, setVisitor ip ⟨now, v.requests + 1⟩ (cleanup now m))) = _
    rw [if_neg (not_lt.mpr hwin), if_neg (not_le.mpr hlt)]
  · intro hwin hge
    unfold allowRequest
    rw [hfind]
    show (if now - v.lastSeen > timeWindow then
        (true, setVisitor ip ⟨now, 1⟩ (cleanup now m))
      else if v.requests ≥ maxRequests then (false, cleanup now m)
      else (true, setVisitor ip ⟨now, v.requests + 1⟩ (cleanup now m))) = _
    rw [if_neg (not_lt.mpr hwin), if_pos hge]

/-- Witness for the amended C3: an in-window admitted request moves the
stored reference to `now` and bumps the counter; a post-gap request resets
the counter to 1; a saturated in-window request is rejected and leaves the
state as cleaned up. -/
theorem rateLimiter_sliding_window_witness :
    allowRequest "9.9.9.9" 50 [("9.9.9.9", ⟨0, 2⟩)] =
      (true, setVisitor "9.9.9.9" ⟨50, 3⟩
        (cleanup 50 [("9.9.9.9", ⟨0, 2⟩)])) ∧
    allowRequest "9.9.9.9" 61 [("9.9.9.9", ⟨0, 2⟩)] =
      (true, setVisitor "9.9.9.9" ⟨61, 1⟩
        (cleanup 61 [("9.9.9.9", ⟨0, 2⟩)])) ∧
    allowRequest "9.9.9.9" 50 [("9.9.9.9", ⟨0, 10⟩)] =
      (false, cleanup 50 [("9.9.9.9", ⟨0, 10⟩)]) := by
  refine ⟨?_, ?_, ?_⟩
  · exact (rateLimiter_sliding_window "9.9.9.9" 50 [("9.9.9.9", ⟨0, 2⟩)]
      ⟨0, 2⟩ (by decide)).2.1 (by decide) (by decide)
  · exact (rateLimiter_sliding_window "9.9.9.9" 61 [("9.9.9.9", ⟨0, 2⟩)]
      ⟨0, 2⟩ (by decide)).1 (by decide)
  · exact (rateLimiter_sliding_window "9.9.9.9" 50 [("9.9.9.9", ⟨0, 10⟩)]
      ⟨0, 10⟩ (by decide)).2.2 (by decide) (by decide)

/-- Counterexample to C7: for a store holding the Link `"abc"` expired at
time 5, the redirect responses at time 10 for `"abc"` (expired) and for
the never-existing `"zzz"` both carry status 404, but they are NOT
indistinguishable: the JSON `message` field echoes `err.Error()`, which is
`"URL has expired"` for the one and `"short code not found"` for the
other, so the body reveals that the code exists. -/
theorem redirect_indistinguishable_counterexample :
    RedirectURL
      [(⟨1, "abc", "https://example.com", 0, some 5, 0, "9.9.9.9", false⟩ :
        URLRec)] 10 "abc" =
      .failure 404 "URL not found" "URL has expired" ∧
    RedirectURL
      [(⟨1, "abc", "https://example.com", 0, some 5, 0, "9.9.9.9", false⟩ :
        URLRec)] 10 "zzz" =
      .failure 404 "URL not found" "short code not found" ∧
    RedirectURL
      [(⟨1, "abc", "https://example.com", 0, some 5, 0, "9.9.9.9", false⟩ :
        URLRec)] 10 "abc" ≠
    RedirectURL
      [(⟨1, "abc", "https://example.com", 0, some 5, 0, "9.9.9.9", false⟩ :
        URLRec)] 10 "zzz" := by decide

/-- C7 as amended: for every nonempty code whose resolution fails, the
redirect endpoint answers 404 with the same `error` field `"URL not
found"`, so status and error field alone do not separate expiry from
nonexistence — but the `message` field carries the resolver's error text,
`"short code not found"` versus `"URL has expired"`, so the full response
body does distinguish them. -/
theorem redirect_failure_responses (urls : List URLRec) (now : Int)
    (code : String) (hne : code ≠ "") :
    (GetOriginalURL urls now code = .error .linkNotFound →
      RedirectURL urls now code =
        .failure 404 "URL not found" "short code not found") ∧
    (GetOriginalURL urls now code = .error .linkExpired →
      RedirectURL urls now code =
        .failure 404 "URL not found" "URL has expired") := by
  constructor
  · intro h
    unfold RedirectURL
    rw [if_neg hne, h]
    rfl
  · intro h
    unfold RedirectURL
    rw [if_neg hne, h]
    rfl

/-- Witness for the amended C7 at the concrete store of the
counterexample's shape (distinct inputs): expired code `"old"` and missing
code `"nope"` both map to 404 `"URL not found"` bodies. -/
theorem redirect_failure_responses_witness :
    RedirectURL
      [(⟨2, "old", "https://example.org", 0, some 1, 0, "8.8.8.8", true⟩ :
        URLRec)] 9 "old" =
      .failure 404 "URL not found" "URL has expired" ∧
    RedirectURL
      [(⟨2, "old", "https://example.org", 0, some 1, 0, "8.8.8.8", true⟩ :
        URLRec)] 9 "nope" =
      .failure 404 "URL not found" "short code not found" := by
  constructor
  · exact (redirect_failure_responses
      [(⟨2, "old", "https://example.org", 0, some 1, 0, "8.8.8.8", true⟩ :
        URLRec)] 9 "old" (by decide)).2 (by rfl)
  · exact (redirect_failure_responses
      [(⟨2, "old", "https://example.org", 0, some 1, 0, "8.8.8.8", true⟩ :
        URLRec)] 9 "nope" (by decide)).1 (by rfl)

lemma takeUntil_append (c : Char) (l r : List Char) (h : c ∉ l) :
    takeUntil c (l ++ c :: r) = l := by
  induction l with
  | nil => simp [takeUntil]
  | cons x xs ih =>
      have hx : ¬ x = c := fun he => h (by simp [he])
      simp only [List.cons_append, takeUntil, if_neg hx]
      show x :: takeUntil c (xs ++ c :: r) = x :: xs
      rw [ih (fun hm => h (by simp [hm]))]

lemma lastIdxOf_eq_none (c : Char) :
    ∀ l : List Char, c ∉ l → lastIdxOf c l = none := by
  intro l
  induction l with
  | nil => intro _; rfl
  | cons x xs ih =>
      intro h
      unfold lastIdxOf
      rw [ih (fun hm => h (by simp [hm]))]
      exact if_neg (fun he => h (by simp [he]))

lemma lastIdxOf_append (c : Char) (l r : List Char) (h : c ∉ r) :
    lastIdxOf c (l ++ c :: r) = some l.length := by
  induction l with
  | nil =>
      show lastIdxOf c (c :: r) = some 0
      unfold lastIdxOf
      rw [lastIdxOf_eq_none c r h]
      simp
  | cons x xs ih =>
      show lastIdxOf c (x :: (xs ++ c :: r)) = some (xs.length + 1)
      unfold lastIdxOf
      rw [ih]

lemma idxOfChar_append (c : Char) (l r : List Char) (h : c ∉ l) :
    idxOfChar c (l ++ c :: r) = some l.length := by
  induction l with
  | nil => simp [idxOfChar]
  | cons x xs ih =>
      have hx : ¬ x = c := fun he => h (by simp [he])
      simp only [List.cons_append, idxOfChar, if_neg hx]
      show Option.map (fun i => i + 1) (idxOfChar c (xs ++ c :: r)) =
        some (xs.length + 1)
      rw [ih (fun hm => h (by simp [hm]))]
      rfl

lemma cutAtLastColon_strip (ip port : List Char) (h : ':' ∉ port) :
    cutAtLastColon (ip ++ ':' :: port) = ip := by
  unfold cutAtLastColon
  rw [if_pos (by simp), lastIdxOf_append ':' ip port h]
  simp [List.take_left]

/-- Counterexample to C9: with no forwarding headers and the IPv6 peer
address `"[::1]:8080"`, the middleware's `getClientIP` — which splits at
the FIRST colon — returns the single character `"["`, not the bracketed
address `"::1"` that the handlers' bracket-aware extractor returns; so not
every component performs bracket-aware extraction. -/
theorem clientIP_bracket_counterexample :
    middlewareGetClientIP [] [] "[::1]:8080".data = "[".data ∧
    handlerGetClientIP [] [] "[::1]:8080".data = "::1".data ∧
    middlewareGetClientIP [] [] "[::1]:8080".data ≠
      handlerGetClientIP [] [] "[::1]:8080".data := by decide

/-- C9 as amended: both identity derivations take the first comma-entry of
the forwarded-for header (trimmed) when present, else the real-IP header;
on the peer address, the handlers' extractor is bracket-aware — `ip:port`
yields `ip` (cut at the LAST colon) and `[ip]:port` yields `ip` — while
the middleware's extractor only handles colon-free addresses and IPv4
`ip:port` correctly, since it cuts at the FIRST colon. -/
theorem clientIP_extraction (xff xri remote ip port : List Char) :
    (xff ≠ [] →
      middlewareGetClientIP xff xri remote = trimSpace (takeUntil ',' xff) ∧
      handlerGetClientIP xff xri remote = trimSpace (takeUntil ',' xff)) ∧
    (xff = [] → xri ≠ [] →
      middlewareGetClientIP xff xri remote = xri ∧
      handlerGetClientIP xff xri remote = xri) ∧
    (':' ∉ ip → ':' ∉ port → ip.head? ≠ some '[' →
      middlewareGetClientIP [] [] (ip ++ ':' :: port) = ip ∧
      handlerGetClientIP [] [] (ip ++ ':' :: port) = ip) ∧
    (']' ∉ ip →
      handlerGetClientIP [] [] ('[' :: ip ++ ']' :: port) = ip) := by
  refine ⟨?_, ?_, ?_, ?_⟩
  · intro hxff
    unfold middlewareGetClientIP handlerGetClientIP
    rw [if_pos hxff, if_pos hxff]
    exact ⟨rfl, rfl⟩
  · intro hxff hxri
    unfold middlewareGetClientIP handlerGetClientIP
    rw [if_neg (not_not_intro hxff), if_neg (not_not_intro hxff),
      if_pos hxri, if_pos hxri]
    exact ⟨rfl, rfl⟩
  · intro hip hport hbr
    have hhead : ¬ (ip ++ ':' :: port).head? = some '[' := by
      cases ip with
      | nil => simp
      | cons x xs => simpa using hbr
    constructor
    · unfold middlewareGetClientIP
      rw [if_neg (not_not_intro rfl), if_neg (not_not_intro rfl),
        if_pos (by simp)]
      exact takeUntil_append ':' ip port hip
    · unfold handlerGetClientIP
      rw [if_neg (not_not_intro rfl), if_neg (not_not_intro rfl),
        if_neg hhead]
      exact cutAtLastColon_strip ip port hport
  · intro hip
    have hidx : idxOfChar ']' ('[' :: ip ++ ']' :: port) =
        some (ip.length + 1) := by
      simp only [List.cons_append, idxOfChar, if_neg (by decide : ¬ '[' = ']')]
      show Option.map (fun i => i + 1) (idxOfChar ']' (ip ++ ']' :: port)) =
        some (ip.length + 1)
      rw [idxOfChar_append ']' ip port hip]
      rfl
    unfold handlerGetClientIP
    rw [if_neg (not_not_intro rfl), if_neg (not_not_intro rfl),
      if_pos (by simp), hidx]
    show (if 0 < ip.length + 1 then
        ((('[' :: ip ++ ']' :: port).drop 1).take (ip.length + 1 - 1))
      else cutAtLastColon ('[' :: ip ++ ']' :: port)) = ip
    rw [if_pos (by omega)]
    simp [List.take_left]

/-- Witness for the amended C9: the header fallbacks and both peer-address
forms at concrete inputs. -/
theorem clientIP_extraction_witness :
    middlewareGetClientIP " 1.2.3.4 ,5.6.7.8".data [] "z".data =
      "1.2.3.4".data ∧
    handlerGetClientIP [] "7.7.7.7".data "1.2.3.4:80".data =
      "7.7.7.7".data ∧
    middlewareGetClientIP [] [] ("10.0.0.1".data ++ ':' :: "555".data) =
      "10.0.0.1".data ∧
    handlerGetClientIP [] [] ("10.0.0.1".data ++ ':' :: "555".data) =
      "10.0.0.1".data ∧
    handlerGetClientIP [] [] ('[' :: "::1".data ++ ']' :: ":8080".data) =
      "::1".data := by
  refine ⟨?_, ?_, ?_, ?_, ?_⟩
  · exact (((clientIP_extraction " 1.2.3.4 ,5.6.7.8".data [] "z".data [] []).1
      (by decide)).1).trans (by decide)
  · exact ((clientIP_extraction [] "7.7.7.7".data "1.2.3.4:80".data [] []).2.1
      rfl (by decide)).2
  · exact ((clientIP_extraction [] [] [] "10.0.0.1".data "555".data).2.2.1
      (by decide) (by decide) (by decide)).1
  · exact ((clientIP_extraction [] [] [] "10.0.0.1".data "555".data).2.2.1
      (by decide) (by decide) (by decide)).2
  · exact (clientIP_extraction [] [] [] "::1".data ":8080".data).2.2.2
      (by decide)

lemma foldl_upsert_length :
    ∀ (rows acc : List (String × Nat)),
      (rows.foldl (fun m p => m.filter (fun q => q.1 ≠ p.1) ++ [p])
        acc).length ≤ acc.length + rows.length := by
  intro rows
  induction rows with
  | nil => intro acc; simp
  | cons p ps ih =>
      intro acc
      simp only [List.foldl_cons, List.length_cons]
      calc (ps.foldl (fun m p => m.filter (fun q => q.1 ≠ p.1) ++ [p])
              (acc.filter (fun q => q.1 ≠ p.1) ++ [p])).length
          ≤ (acc.filter (fun q => q.1 ≠ p.1) ++ [p]).length + ps.length :=
            ih _
        _ ≤ acc.length + (ps.length + 1) := by
            simp only [List.length_append, List.length_cons,
              List.length_nil]
            have := List.length_filter_le (fun q => q.1 ≠ p.1) acc
            omega

lemma foldl_upsert_subset :
    ∀ (rows acc : List (String × Nat)) (x : String × Nat),
      x ∈ rows.foldl (fun m p => m.filter (fun q => q.1 ≠ p.1) ++ [p]) acc →
      x ∈ acc ∨ x ∈ rows := by
  intro rows
  induction rows with
  | nil => intro acc x hx; exact Or.inl hx
  | cons p ps ih =>
      intro acc x hx
      simp only [List.foldl_cons] at hx
      rcases ih _ x hx with h | h
      · rcases List.mem_append.mp h with h | h
        · exact Or.inl (List.mem_of_mem_filter h)
        · right
          simp only [List.mem_singleton] at h
          simp [h]
      · right
        simp [h]

lemma foldl_upsert_of_nodup_keys :
    ∀ (rows acc : List (String × Nat)),
      ((acc ++ rows).map Prod.fst).Nodup →
      rows.foldl (fun m p => m.filter (fun q => q.1 ≠ p.1) ++ [p]) acc =
        acc ++ rows := by
  intro rows
  induction rows with
  | nil => intro acc _; simp
  | cons p ps ih =>
      intro acc hnd
      have hkey : ∀ q ∈ acc, q.1 ≠ p.1 := by
        intro q hq he
        have hsplit := List.nodup_append.mp
          (show ((acc.map Prod.fst) ++ ((p :: ps).map Prod.fst)).Nodup by
            simpa using hnd)
        exact hsplit.2.2 (List.mem_map_of_mem Prod.fst hq)
          (by rw [he]; simp)
      have hfilter : acc.filter (fun q => q.1 ≠ p.1) = acc :=
        List.filter_eq_self.mpr (fun q hq => by
          simpa using hkey q hq)
      simp only [List.foldl_cons, hfilter]
      have hnd' : (((acc ++ [p]) ++ ps).map Prod.fst).Nodup := by
        rw [List.append_cons] at hnd
        exact hnd
      rw [ih (acc ++ [p]) hnd']
      simp

lemma countryRows_keys (clicks : List Click) (code : String) :
    (countryRows clicks code).map Prod.fst =
      (((matchingClicks clicks code).filter (fun k => k.country ≠ "")).map
        (fun k => k.country)).dedup := by
  unfold countryRows
  rw [List.map_map]
  simp [Function.comp_def]

lemma countryRows_keys_nodup (clicks : List Click) (code : String) :
    ((countryRows clicks code).map Prod.fst).Nodup := by
  rw [countryRows_keys]
  exact List.nodup_dedup _

lemma countryRows_members (clicks : List Click) (code : String) :
    ∀ p ∈ countryRows clicks code, p.1 ≠ "" ∧
      p.2 = ((matchingClicks clicks code).filter
        (fun k => k.country ≠ "")).countP (fun k => k.country = p.1) := by
  intro p hp
  unfold countryRows at hp
  simp only [List.mem_map] at hp
  obtain ⟨c, hc, hpc⟩ := hp
  have hcmem : c ∈ ((matchingClicks clicks code).filter
      (fun k => k.country ≠ "")).map (fun k => k.country) :=
    List.mem_dedup.mp hc
  obtain ⟨k, hk, hkc⟩ := List.mem_map.mp hcmem
  have hkne : k.country ≠ "" := by
    have := List.of_mem_filter hk
    simpa using this
  constructor
  · rw [← hpc]
    simpa [hkc] using hkne
  · rw [← hpc]
    simp [List.countP_eq_length_filter]

/-- Counterexample to C8: a log with one click from country `"A"` and two
from country `"B"` yields the Go map whose canonical (key-ordered) entry
sequence is `[("A", 1), ("B", 2)]` — NOT ordered by descending count: the
`ORDER BY count DESC` of the SQL applies only to the internal row
selection and is discarded when the rows are poured into the unordered
`map[string]int` that the service returns. -/
theorem clicksByCountry_order_counterexample :
    getClicksByCountry
      [(⟨"x", "1.1.1.1", "", "", "A", "", 0⟩ : Click),
        ⟨"x", "2.2.2.2", "", "", "B", "", 0⟩,
        ⟨"x", "3.3.3.3", "", "", "B", "", 1⟩] "x" = [("A", 1), ("B", 2)] ∧
    ¬ List.Sorted (fun p q : String × Nat => q.2 ≤ p.2)
      (getClicksByCountry
        [(⟨"x", "1.1.1.1", "", "", "A", "", 0⟩ : Click),
          ⟨"x", "2.2.2.2", "", "", "B", "", 0⟩,
          ⟨"x", "3.3.3.3", "", "", "B", "", 1⟩] "x") := by
  constructor
  · decide
  · rw [show getClicksByCountry
        [(⟨"x", "1.1.1.1", "", "", "A", "", 0⟩ : Click),
          ⟨"x", "2.2.2.2", "", "", "B", "", 0⟩,
          ⟨"x", "3.3.3.3", "", "", "B", "", 1⟩] "x" =
        [("A", 1), ("B", 2)] by decide]
    intro h
    have := List.rel_of_sorted_cons h ("B", 2) (by simp)
    omega

/-- C8 as amended: `clicksByCountry` maps each listed country to the count
of matching events with that country, excludes empty country values, and
holds at most 10 entries; but the returned value is an unordered Go map
(canonically observed in ascending key order), so descending-count
ordering is a property only of the internal SQL row selection — not of the
result — and when at most 10 distinct countries exist the map's entries
are exactly the per-country counts. -/
theorem clicksByCountry_contract (clicks : List Click) (code : String) :
    (getClicksByCountry clicks code).length ≤ 10 ∧
    (∀ p ∈ getClicksByCountry clicks code, p ∈ countryRows clicks code) ∧
    (∀ p ∈ getClicksByCountry clicks code, p.1 ≠ "" ∧
      p.2 = ((matchingClicks clicks code).filter
        (fun k => k.country ≠ "")).countP (fun k => k.country = p.1)) ∧
    ((countryRows clicks code).length ≤ 10 →
      (getClicksByCountry clicks code).Perm (countryRows clicks code)) := by
  have hmem : ∀ p ∈ getClicksByCountry clicks code,
      p ∈ countryRows clicks code := by
    intro p hp
    unfold getClicksByCountry goMapEntries at hp
    have hp1 := (List.perm_insertionSort
      (fun p q : String × Nat => lexLe p.1.data q.1.data) _).mem_iff.mp hp
    rcases foldl_upsert_subset _ [] p hp1 with h | h
    · cases h
    · have hp2 : p ∈ (countryRows clicks code).insertionSort
          (fun p q : String × Nat => q.2 ≤ p.2) := by
        unfold sqlCountryRows at h
        exact List.take_subset _ _ h
      exact (List.perm_insertionSort _ _).mem_iff.mp hp2
  refine ⟨?_, hmem, ?_, ?_⟩
  · unfold getClicksByCountry goMapEntries
    rw [List.length_insertionSort]
    calc (((sqlCountryRows clicks code).foldl
            (fun m p => m.filter (fun q => q.1 ≠ p.1) ++ [p]) []).length)
        ≤ [].length + (sqlCountryRows clicks code).length :=
          foldl_upsert_length _ []
      _ ≤ 10 := by
          unfold sqlCountryRows
          simp [List.length_take]
  · intro p hp
    exact countryRows_members clicks code p (hmem p hp)
  · intro hle
    have hsort : ((countryRows clicks code).insertionSort
        (fun p q : String × Nat => q.2 ≤ p.2)).Perm
        (countryRows clicks code) :=
      List.perm_insertionSort _ _
    have htake : sqlCountryRows clicks code =
        (countryRows clicks code).insertionSort
          (fun p q : String × Nat => q.2 ≤ p.2) := by
      unfold sqlCountryRows
      apply List.take_of_length_le
      rw [List.length_insertionSort]
      exact hle
    have hnd : ((sqlCountryRows clicks code).map Prod.fst).Nodup := by
      rw [htake]
      exact ((hsort.map Prod.fst).nodup_iff).mpr
        (countryRows_keys_nodup clicks code)
    have hfold : (sqlCountryRows clicks code).foldl
        (fun m p => m.filter (fun q => q.1 ≠ p.1) ++ [p]) [] =
        sqlCountryRows clicks code := by
      have := foldl_upsert_of_nodup_keys (sqlCountryRows clicks code) []
        (by simpa using hnd)
      simpa using this
    unfold getClicksByCountry goMapEntries
    rw [hfold]
    refine List.Perm.trans (List.perm_insertionSort _ _) ?_
    rw [htake]
    exact hsort

/-- Witness for the amended C8: on the three-click log with countries
`"A"` (1 click) and `"B"` (2 clicks) the map holds exactly the two
per-country rows, every entry is a nonempty country with its match count,
and there are at most 10 entries. -/
theorem clicksByCountry_contract_witness :
    (getClicksByCountry
      [(⟨"y", "1.1.1.1", "", "", "A", "", 0⟩ : Click),
        ⟨"y", "2.2.2.2", "", "", "B", "", 0⟩,
        ⟨"y", "3.3.3.3", "", "", "B", "", 1⟩] "y").length ≤ 10 ∧
    (getClicksByCountry
      [(⟨"y", "1.1.1.1", "", "", "A", "", 0⟩ : Click),
        ⟨"y", "2.2.2.2", "", "", "B", "", 0⟩,
        ⟨"y", "3.3.3.3", "", "", "B", "", 1⟩] "y").Perm
      (countryRows
        [(⟨"y", "1.1.1.1", "", "", "A", "", 0⟩ : Click),
          ⟨"y", "2.2.2.2", "", "", "B", "", 0⟩,
          ⟨"y", "3.3.3.3", "", "", "B", "", 1⟩] "y") := by
  have h := clicksByCountry_contract
    [(⟨"y", "1.1.1.1", "", "", "A", "", 0⟩ : Click),
      ⟨"y", "2.2.2.2", "", "", "B", "", 0⟩,
      ⟨"y", "3.3.3.3", "", "", "B", "", 1⟩] "y"
  exact ⟨h.1, h.2.2.2 (by decide)⟩
